import Mathlib

/-!
Verification of the session-managed HTTP transport layer of the vibeco-mcp
server: the bounded LRU session cache (`src/utils/lru-cache.ts`), the CORS
path-boundary matcher (`src/server/cors.ts`), and the HTTP handlers with
their idle sweep (`src/server/http-server.ts`).

The JavaScript `Map` is modelled as an insertion-ordered association list
(head = oldest binding = first to be yielded by `keys()`); `Map.set` updates
the first matching binding in place or appends a fresh binding at the end,
exactly as the ECMAScript specification prescribes.
-/

namespace VibeMcp

universe u

/-- JavaScript `Map.get`: value of the first binding of `k`, if any. -/
def mapGet {V : Type u} : List (String × V) → String → Option V
  | [], _ => none
  | (k', v) :: rest, k => if k' = k then some v else mapGet rest k

/-- JavaScript `Map.has`: membership test, no mutation. -/
def mapHas {V : Type u} : List (String × V) → String → Bool
  | [], _ => false
  | (k', _) :: rest, k => if k' = k then true else mapHas rest k

/-- JavaScript `Map.set`: replace the first binding of `k` in place, else append at the end. -/
def mapSet {V : Type u} : List (String × V) → String → V → List (String × V)
  | [], k, v => [(k, v)]
  | (k', v') :: rest, k, v =>
    if k' = k then (k, v) :: rest else (k', v') :: mapSet rest k v

/-- JavaScript `Map.delete`: remove the first binding of `k`; report whether it was present. -/
def mapDelete {V : Type u} : List (String × V) → String → List (String × V) × Bool
  | [], _ => ([], false)
  | (k', v') :: rest, k =>
    if k' = k then (rest, true)
    else
      let r := mapDelete rest k
      ((k', v') :: r.1, r.2)

/-- The LRU cache of `src/utils/lru-cache.ts`: a max size and the backing map.
The head of `cache` is the least-recently-used entry (the first key yielded
by `this.cache.keys()`). -/
structure LRUCache (V : Type u) where
  maxSize : Nat
  cache : List (String × V)
  deriving DecidableEq

namespace LRUCache

variable {V : Type u}

/-- A freshly constructed cache. -/
def empty (V : Type u) (maxSize : Nat) : LRUCache V := ⟨maxSize, []⟩

/-- Getter `size`. -/
def size (c : LRUCache V) : Nat := c.cache.length

/-- Method `has(key)`: checks membership; does NOT update the access order. -/
def has (c : LRUCache V) (k : String) : Bool := mapHas c.cache k

/-- Method `get(key)`: returns the value and marks the key as recently used
(delete + re-insert at the most-recent end when present). -/
def get (c : LRUCache V) (k : String) : Option V × LRUCache V :=
  match mapGet c.cache k with
  | some v => (some v, ⟨c.maxSize, mapSet (mapDelete c.cache k).1 k v⟩)
  | none => (none, c)

/-- Method `set(key, value)`. Returns `none` for the `"Cache iteration failed
unexpectedly"` throw (reachable only when the overflow branch runs on an
empty map). Otherwise returns the new cache together with the argument pair
passed to the `onEvict` hook, when the hook fired. -/
def set (c : LRUCache V) (k : String) (v : V) :
    Option (LRUCache V × Option (String × V)) :=
  if mapHas c.cache k then
    some (⟨c.maxSize, mapSet (mapDelete c.cache k).1 k v⟩, none)
  else if c.maxSize ≤ c.cache.length then
    match c.cache with
    | [] => none
    | (k0, v0) :: _ =>
      some (⟨c.maxSize, mapSet (mapDelete c.cache k0).1 k v⟩, some (k0, v0))
  else
    some (⟨c.maxSize, mapSet c.cache k v⟩, none)

/-- Method `delete(key)`: removes the key from the backing map only; returns whether
it existed. The eviction hook is not involved. -/
def delete (c : LRUCache V) (k : String) : LRUCache V × Bool :=
  ((⟨c.maxSize, (mapDelete c.cache k).1⟩ : LRUCache V), (mapDelete c.cache k).2)

/-- Method `entries()`: all entries, least recently used first. -/
def entries (c : LRUCache V) : List (String × V) := c.cache

/-- Method `clear()`. -/
def clear (c : LRUCache V) : LRUCache V := ⟨c.maxSize, []⟩

end LRUCache

/-- One cache operation, for reasoning about operation sequences. -/
inductive CacheOp (V : Type u) where
  | get (k : String)
  | has (k : String)
  | set (k : String) (v : V)
  | del (k : String)

namespace LRUCache

variable {V : Type u}

/-- Run one operation: the resulting cache plus the list of `onEvict`
invocations (each carrying the evicted key and value) the operation performs.
`get`, `has` and `delete` never invoke the hook; `set` invokes it exactly
when its overflow branch fires. -/
def step (c : LRUCache V) : CacheOp V → Option (LRUCache V × List (String × V))
  | .get k => some ((c.get k).2, [])
  | .has _ => some (c, [])
  | .set k v => (c.set k v).map fun r => (r.1, r.2.toList)
  | .del k => some ((c.delete k).1, [])

/-- Run a sequence of operations, accumulating all `onEvict` invocations. -/
def runOps (c : LRUCache V) : List (CacheOp V) → Option (LRUCache V × List (String × V))
  | [] => some (c, [])
  | op :: rest =>
    (c.step op).bind fun r => (runOps r.1 rest).map fun r' => (r'.1, r.2 ++ r'.2)

/-- Run a sequence of `set` operations. -/
def runSets (c : LRUCache V) : List (String × V) → Option (LRUCache V)
  | [] => some c
  | (k, v) :: rest =>
    match c.set k v with
    | none => none
    | some (c', _) => c'.runSets rest

end LRUCache

/-! ### CORS path allowlisting (`src/server/cors.ts`)

Request paths are modelled as their character sequences (`List Char`);
JavaScript string equality, `startsWith` and `endsWith` are character-wise. -/

/-- Function `matchesAllowedPathBoundary(requestPath, allowedPath)` from `src/server/cors.ts`:
exact match, or — when the allowed path ends in `"/"` — plain prefix match,
otherwise prefix match against the allowed path with `"/"` appended. -/
def matchesAllowedPathBoundary (requestPath allowedPath : List Char) : Bool :=
  if requestPath = allowedPath then true
  else if List.isSuffixOf ['/'] allowedPath then List.isPrefixOf allowedPath requestPath
  else List.isPrefixOf (allowedPath ++ ['/']) requestPath

/-- The spec's contract for the matcher, stated in the spec's own words:
the request path equals the allowed path exactly, or begins with the allowed
path followed immediately by a path separator; when the allowed path already
ends in a separator, exact-prefix matching is used (no separator re-added). -/
def matchesBoundarySpec (requestPath allowedPath : List Char) : Prop :=
  requestPath = allowedPath ∨
    (if List.isSuffixOf ['/'] allowedPath then ∃ rest, requestPath = allowedPath ++ rest
     else ∃ rest, requestPath = allowedPath ++ '/' :: rest)

/-- Constant `CORS_ALLOWED_PATHS` from `src/server/cors.ts`. -/
def CORS_ALLOWED_PATHS : List (List Char) := [['/', 'm', 'c', 'p']]

/-- Function `isCorsAllowedPath` from `src/server/cors.ts`. -/
def isCorsAllowedPath (requestPath : List Char) : Bool :=
  CORS_ALLOWED_PATHS.any fun allowedPath =>
    matchesAllowedPathBoundary requestPath allowedPath

/-! ### HTTP server (`src/server/http-server.ts`) -/

/-- Constant `SESSION_IDLE_TIMEOUT_MS` (30 minutes). -/
def SESSION_IDLE_TIMEOUT_MS : Int := 30 * 60 * 1000

/-- Constant `MAX_SESSIONS`. -/
def MAX_SESSIONS : Nat := 1000

/-- Constant `JSONRPC_ERROR_INVALID_REQUEST` from `src/constants.ts`. -/
def JSONRPC_ERROR_INVALID_REQUEST : Int := -32600

/-- Constant `JSONRPC_ERROR_INTERNAL` from `src/constants.ts`. -/
def JSONRPC_ERROR_INTERNAL : Int := -32603

/-- Record `SessionInfo`: the transport bound to the session (identified by an
engine-instance id) and the last-activity timestamp in milliseconds. -/
structure SessionInfo where
  transport : Nat
  lastActivity : Int
  deriving DecidableEq

/-- A JSON-RPC error envelope written by a handler via
`res.status(s).json({ jsonrpc, error: { code, message }, id: null })`. -/
structure JsonErrorResponse where
  status : Nat
  code : Int
  message : String
  deriving DecidableEq

/-- The 404 envelope of the POST / GET / DELETE handlers. -/
def sessionNotFound : JsonErrorResponse :=
  ⟨404, JSONRPC_ERROR_INVALID_REQUEST, "Session not found"⟩

/-- The 400 envelope of the GET / DELETE handlers for a missing session id. -/
def missingSessionId : JsonErrorResponse :=
  ⟨400, JSONRPC_ERROR_INVALID_REQUEST, "Missing session ID"⟩

/-- The 400 envelope of the POST handler's final `else` branch. -/
def badRequestNoSession : JsonErrorResponse :=
  ⟨400, JSONRPC_ERROR_INVALID_REQUEST, "Bad Request: No valid session ID provided"⟩

/-- The 500 envelope of the POST handler's `catch` branch. -/
def internalServerError : JsonErrorResponse :=
  ⟨500, JSONRPC_ERROR_INTERNAL, "Internal server error"⟩

/-- The 500 envelope of the DELETE handler's `catch` branch. -/
def terminationError : JsonErrorResponse :=
  ⟨500, JSONRPC_ERROR_INTERNAL, "Error processing session termination"⟩

/-- What the handlers observe of an inbound request: the `mcp-session-id`
header and whether `isInitializeRequest(req.body)` holds. -/
structure McpRequest where
  sessionId : Option String
  isInit : Bool
  deriving DecidableEq

/-- Behaviour of `transport.handleRequest(req, res)` as seen by a handler:
it either resolves, or throws — in which case `headersSent` records whether
the response had already begun streaming when it threw. -/
inductive DispatchResult where
  | ok
  | thrown (headersSent : Bool)
  deriving DecidableEq

/-- What one handler invocation did: the session cache afterwards, the JSON
error envelopes the handler itself wrote, the transports whose
`handleRequest` it invoked, the `touchSession` calls it made, and whether it
constructed a new transport. -/
structure HandlerResult where
  sessions : LRUCache SessionInfo
  writes : List JsonErrorResponse
  dispatched : List Nat
  touched : List String
  engineCreated : Bool
  deriving DecidableEq

/-- Helper `touchSession`: look the session up (which also promotes its recency),
refresh `lastActivity`, and re-insert. The inner `none` arms mirror the
`v8 ignore`d guard and the unreachable overflow throw (the key is present
after a successful `get`, so `set` takes its first branch). -/
def touchSession (now : Int) (sid : String) (st : LRUCache SessionInfo) :
    LRUCache SessionInfo :=
  match st.get sid with
  | (none, st₁) => st₁
  | (some info, st₁) =>
    match st₁.set sid { info with lastActivity := now } with
    | some (st₂, _) => st₂
    | none => st₁

/-- Handler `mcpPostHandler`. `newTid` is the transport the `create` branch would
construct, `established` whether `onsessioninitialized` fired with session id
`newSid` (registering the session) before the handler finished, `disp` how
`transport.handleRequest` behaved. The `catch` writes the 500 envelope only
when `res.headersSent` is still false. -/
def mcpPostHandler (now : Int) (disp : DispatchResult) (newSid : String) (newTid : Nat)
    (established : Bool) (req : McpRequest) (st : LRUCache SessionInfo) : HandlerResult :=
  match req.sessionId with
  | some sid =>
    match st.get sid with
    | (some info, st₁) =>
      let st₂ := touchSession now sid st₁
      match disp with
      | .ok => ⟨st₂, [], [info.transport], [sid], false⟩
      | .thrown true => ⟨st₂, [], [info.transport], [sid], false⟩
      | .thrown false => ⟨st₂, [internalServerError], [info.transport], [sid], false⟩
    | (none, st₁) => ⟨st₁, [sessionNotFound], [], [], false⟩
  | none =>
    if req.isInit then
      let st₁ :=
        if established then
          match st.set newSid ⟨newTid, now⟩ with
          | some (st', _) => st'
          | none => st
        else st
      match disp with
      | .ok => ⟨st₁, [], [newTid], [], true⟩
      | .thrown true => ⟨st₁, [], [newTid], [], true⟩
      | .thrown false => ⟨st₁, [internalServerError], [], [], true⟩
    else ⟨st, [badRequestNoSession], [], [], false⟩

/-- Handler `mcpGetHandler`. Note the source has no `try`/`catch` here: a thrown
dispatch escapes the handler, which therefore never writes an error envelope
of its own in that case. -/
def mcpGetHandler (now : Int) (disp : DispatchResult) (req : McpRequest)
    (st : LRUCache SessionInfo) : HandlerResult :=
  match req.sessionId with
  | none => ⟨st, [missingSessionId], [], [], false⟩
  | some sid =>
    match st.get sid with
    | (none, st₁) => ⟨st₁, [sessionNotFound], [], [], false⟩
    | (some info, st₁) =>
      let st₂ := touchSession now sid st₁
      match disp with
      | .ok => ⟨st₂, [], [info.transport], [sid], false⟩
      | .thrown _ => ⟨st₂, [], [info.transport], [sid], false⟩

/-- Handler `mcpDeleteHandler`. The source calls no `touchSession` here; its
`try`/`catch` writes the termination-error 500 envelope only when
`res.headersSent` is still false. -/
def mcpDeleteHandler (disp : DispatchResult) (req : McpRequest)
    (st : LRUCache SessionInfo) : HandlerResult :=
  match req.sessionId with
  | none => ⟨st, [missingSessionId], [], [], false⟩
  | some sid =>
    match st.get sid with
    | (none, st₁) => ⟨st₁, [sessionNotFound], [], [], false⟩
    | (some info, st₁) =>
      match disp with
      | .ok => ⟨st₁, [], [info.transport], [], false⟩
      | .thrown true => ⟨st₁, [], [info.transport], [], false⟩
      | .thrown false => ⟨st₁, [terminationError], [info.transport], [], false⟩

/-- Helper `cleanupSession`: look the session up, ask its transport to close
(`closeFails` records whether that close threw or rejected — the
`try`/`catch` and `.catch` absorb it either way), then delete the entry.
Returns the close attempts made, each tagged with whether it failed. -/
def cleanupSession (closeFails : Bool) (sid : String) (st : LRUCache SessionInfo) :
    LRUCache SessionInfo × List (Nat × Bool) :=
  match st.get sid with
  | (none, st₁) => (st₁, [])
  | (some info, st₁) => (((st₁.delete sid).1), [(info.transport, closeFails)])

/-- Loop body of the `cleanupInterval` callback: clean the entry up when its
idle duration exceeds the timeout, else leave the state alone. -/
def sweepStep (now : Int) (closeFails : String → Bool)
    (acc : LRUCache SessionInfo × List (Nat × Bool)) (e : String × SessionInfo) :
    LRUCache SessionInfo × List (Nat × Bool) :=
  if SESSION_IDLE_TIMEOUT_MS < now - e.2.lastActivity then
    let r := cleanupSession (closeFails e.1) e.1 acc.1
    (r.1, acc.2 ++ r.2)
  else acc

/-- One tick of `cleanupInterval`: walk the entries (oldest first) and clean
up every session whose idle duration exceeds the timeout. The JavaScript
`for…of` over the live `Map` is modelled as a fold over the entry snapshot:
a cleaned-up entry is re-appended by `get` and synchronously removed again
before the loop advances, so each originally present entry is processed
exactly once. -/
def sweepTick (now : Int) (closeFails : String → Bool) (st : LRUCache SessionInfo) :
    LRUCache SessionInfo × List (Nat × Bool) :=
  st.entries.foldl (sweepStep now closeFails) (st, [])

/-! ### CORS middleware (`src/server/http-server.ts`) -/

/-- What the CORS middleware observes of a request. -/
structure CorsRequest where
  origin : Option String
  method : String
  path : List Char
  deriving DecidableEq

/-- What the CORS middleware did: called `next()` (with the response headers
it set), answered an OPTIONS preflight with `204`, or rejected with `403`. -/
inductive CorsAction where
  | pass (headers : List (String × String))
  | preflight (headers : List (String × String))
  | forbidden
  deriving DecidableEq

/-- The four CORS headers set for an allowed path. -/
def corsHeaders (origin : String) : List (String × String) :=
  [("Access-Control-Allow-Origin", origin),
   ("Access-Control-Allow-Methods", "GET, POST, DELETE, OPTIONS"),
   ("Access-Control-Allow-Headers", "Content-Type, mcp-session-id"),
   ("Access-Control-Max-Age", "86400")]

/-- The CORS middleware: no Origin header → straight to `next()`, no headers;
otherwise allowed paths get the CORS headers (OPTIONS short-circuits with
204), and every other cross-origin request is rejected with 403. -/
def corsMiddleware (req : CorsRequest) : CorsAction :=
  match req.origin with
  | none => .pass []
  | some origin =>
    if isCorsAllowedPath req.path then
      if req.method = "OPTIONS" then .preflight (corsHeaders origin)
      else .pass (corsHeaders origin)
    else .forbidden

section MapLemmas

variable {V : Type u}

@[simp] theorem mapGet_nil (k : String) : mapGet ([] : List (String × V)) k = none := rfl

@[simp] theorem mapGet_cons (ek : String) (ev : V) (rest : List (String × V)) (k : String) :
    mapGet ((ek, ev) :: rest) k = if ek = k then some ev else mapGet rest k := rfl

@[simp] theorem mapHas_nil (k : String) : mapHas ([] : List (String × V)) k = false := rfl

@[simp] theorem mapHas_cons (ek : String) (ev : V) (rest : List (String × V)) (k : String) :
    mapHas ((ek, ev) :: rest) k = if ek = k then true else mapHas rest k := rfl

@[simp] theorem mapSet_nil (k : String) (v : V) :
    mapSet ([] : List (String × V)) k v = [(k, v)] := rfl

@[simp] theorem mapSet_cons (ek : String) (ev : V) (rest : List (String × V)) (k : String) (v : V) :
    mapSet ((ek, ev) :: rest) k v =
      if ek = k then (k, v) :: rest else (ek, ev) :: mapSet rest k v := rfl

@[simp] theorem mapDelete_nil (k : String) :
    mapDelete ([] : List (String × V)) k = ([], false) := rfl

@[simp] theorem mapDelete_cons (ek : String) (ev : V) (rest : List (String × V)) (k : String) :
    mapDelete ((ek, ev) :: rest) k =
      if ek = k then (rest, true)
      else ((ek, ev) :: (mapDelete rest k).1, (mapDelete rest k).2) := rfl

theorem mapGet_eq_none_of_not_has {l : List (String × V)} {k : String}
    (h : mapHas l k = false) : mapGet l k = none := by
  induction l with
  | nil => rfl
  | cons e rest ih =>
    obtain ⟨ek, ev⟩ := e
    by_cases hek : ek = k
    · simp [hek] at h
    · simp only [mapHas_cons, if_neg hek] at h
      simp [hek, ih h]

theorem mapHas_of_mapGet_some {l : List (String × V)} {k : String} {v : V}
    (h : mapGet l k = some v) : mapHas l k = true := by
  induction l with
  | nil => simp at h
  | cons e rest ih =>
    obtain ⟨ek, ev⟩ := e
    by_cases hek : ek = k
    · simp [hek]
    · simp only [mapGet_cons, if_neg hek] at h
      simp [hek, ih h]

theorem mapSet_of_not_has {l : List (String × V)} {k : String} (v : V)
    (h : mapHas l k = false) : mapSet l k v = l ++ [(k, v)] := by
  induction l with
  | nil => rfl
  | cons e rest ih =>
    obtain ⟨ek, ev⟩ := e
    by_cases hek : ek = k
    · simp [hek] at h
    · simp only [mapHas_cons, if_neg hek] at h
      simp [hek, ih h]

theorem mapGet_mapSet_self (l : List (String × V)) (k : String) (v : V) :
    mapGet (mapSet l k v) k = some v := by
  induction l with
  | nil => simp
  | cons e rest ih =>
    obtain ⟨ek, ev⟩ := e
    by_cases hek : ek = k
    · simp [hek]
    · simp [hek, ih]

theorem mapHas_mapSet (l : List (String × V)) (k k' : String) (v : V) :
    mapHas (mapSet l k v) k' = (mapHas l k' || decide (k = k')) := by
  induction l with
  | nil =>
    by_cases h : k = k' <;> simp [h]
  | cons e rest ih =>
    obtain ⟨ek, ev⟩ := e
    by_cases hek : ek = k
    · subst hek
      by_cases h2 : ek = k' <;> simp [h2]
    · by_cases h2 : ek = k'
      · subst h2
        simp [hek, ih]
      · simp [hek, h2, ih]

theorem mapHas_mapDelete_ne {l : List (String × V)} {k k' : String}
    (hne : k' ≠ k) : mapHas (mapDelete l k).1 k' = mapHas l k' := by
  induction l with
  | nil => rfl
  | cons e rest ih =>
    obtain ⟨ek, ev⟩ := e
    by_cases hek : ek = k
    · subst hek
      simp [Ne.symm hne]
    · by_cases h2 : ek = k'
      · subst h2
        simp [hek]
      · simp [hek, h2, ih]

theorem mapGet_mapDelete_ne {l : List (String × V)} {k k' : String}
    (hne : k' ≠ k) : mapGet (mapDelete l k).1 k' = mapGet l k' := by
  induction l with
  | nil => rfl
  | cons e rest ih =>
    obtain ⟨ek, ev⟩ := e
    by_cases hek : ek = k
    · subst hek
      simp [Ne.symm hne]
    · by_cases h2 : ek = k'
      · subst h2
        simp [hek]
      · simp [hek, h2, ih]

theorem mapGet_mapSet_ne {l : List (String × V)} {k k' : String} (v : V)
    (hne : k' ≠ k) : mapGet (mapSet l k v) k' = mapGet l k' := by
  induction l with
  | nil => simp [Ne.symm hne]
  | cons e rest ih =>
    obtain ⟨ek, ev⟩ := e
    by_cases hek : ek = k
    · subst hek
      simp [Ne.symm hne]
    · by_cases h2 : ek = k'
      · subst h2
        simp [hek]
      · simp [hek, h2, ih]

theorem mapSet_length (l : List (String × V)) (k : String) (v : V) :
    (mapSet l k v).length = if mapHas l k then l.length else l.length + 1 := by
  induction l with
  | nil => simp
  | cons e rest ih =>
    obtain ⟨ek, ev⟩ := e
    by_cases hek : ek = k
    · simp [hek]
    · simp only [mapSet_cons, if_neg hek, mapHas_cons, List.length_cons, ih]
      split <;> simp

theorem mapDelete_length {l : List (String × V)} {k : String}
    (h : mapHas l k = true) : (mapDelete l k).1.length + 1 = l.length := by
  induction l with
  | nil => simp at h
  | cons e rest ih =>
    obtain ⟨ek, ev⟩ := e
    by_cases hek : ek = k
    · simp [hek]
    · simp only [mapHas_cons, if_neg hek] at h
      simp [hek, ih h]

end MapLemmas

section LruLemmas

variable {V : Type u}

theorem set_present {c : LRUCache V} {k : String} (v : V) (hhas : c.has k = true) :
    c.set k v = some (⟨c.maxSize, mapSet (mapDelete c.cache k).1 k v⟩, none) := by
  have hhas' : mapHas c.cache k = true := hhas
  unfold LRUCache.set
  rw [if_pos hhas']

theorem set_room {c : LRUCache V} {k : String} (v : V) (hnot : c.has k = false)
    (hroom : c.cache.length < c.maxSize) :
    c.set k v = some (⟨c.maxSize, c.cache ++ [(k, v)]⟩, none) := by
  unfold LRUCache.set
  rw [if_neg (by simp [LRUCache.has] at hnot; simp [hnot]),
    if_neg (by omega), mapSet_of_not_has v hnot]

theorem set_overflow {c : LRUCache V} {k : String} (v : V) {k0 : String} {v0 : V}
    {t : List (String × V)} (hc : c.cache = (k0, v0) :: t) (hnot : c.has k = false)
    (hfull : c.maxSize ≤ c.cache.length) :
    c.set k v = some (⟨c.maxSize, t ++ [(k, v)]⟩, some (k0, v0)) := by
  have hnot' : mapHas c.cache k = false := hnot
  rw [hc] at hnot'
  have hk0 : ¬ k0 = k := by
    intro h
    simp [h] at hnot'
  have ht : mapHas t k = false := by
    simpa [hk0] using hnot'
  unfold LRUCache.set
  rw [if_neg (by simp [LRUCache.has] at hnot; simp [hnot]), if_pos hfull]
  simp only [hc]
  rw [mapDelete_cons, if_pos rfl]
  simp [mapSet_of_not_has v ht]

theorem set_preserves_bound {N : Nat} (hN : 1 ≤ N) {c c' : LRUCache V} {k : String}
    {v : V} {ev : Option (String × V)} (hmax : c.maxSize = N) (hsize : c.size ≤ N)
    (h : c.set k v = some (c', ev)) : c'.maxSize = N ∧ c'.size ≤ N := by
  by_cases hhas : c.has k
  · rw [set_present v hhas] at h
    obtain ⟨rfl, rfl⟩ : (⟨c.maxSize, mapSet (mapDelete c.cache k).1 k v⟩ : LRUCache V) = c'
        ∧ (none : Option (String × V)) = ev := by
      constructor <;> injection h with h1 <;> injection h1
    have hdel : (mapDelete c.cache k).1.length + 1 = c.cache.length :=
      mapDelete_length hhas
    refine ⟨hmax, ?_⟩
    simp only [LRUCache.size, mapSet_length]
    have : c.cache.length ≤ N := hsize
    split <;> omega
  · by_cases hfull : c.maxSize ≤ c.cache.length
    · rcases hcc : c.cache with _ | ⟨⟨k0, v0⟩, t⟩
      · exfalso
        rw [hcc] at hfull
        simp at hfull
        omega
      · rw [set_overflow v hcc (by simpa using hhas) hfull] at h
        obtain ⟨rfl, rfl⟩ : (⟨c.maxSize, t ++ [(k, v)]⟩ : LRUCache V) = c'
            ∧ (some (k0, v0) : Option (String × V)) = ev := by
          constructor <;> injection h with h1 <;> injection h1
        refine ⟨hmax, ?_⟩
        have hlen : t.length + 1 ≤ N := by
          have hl : c.cache.length ≤ N := hsize
          rw [hcc] at hl
          simpa using hl
        simp only [LRUCache.size, List.length_append, List.length_cons, List.length_nil]
        omega
    · have hl : c.cache.length ≤ N := hsize
      have hroom' : c.cache.length < c.maxSize := by omega
      rw [set_room v (by simpa using hhas) hroom'] at h
      obtain ⟨rfl, rfl⟩ : (⟨c.maxSize, c.cache ++ [(k, v)]⟩ : LRUCache V) = c'
          ∧ (none : Option (String × V)) = ev := by
        constructor <;> injection h with h1 <;> injection h1
      refine ⟨hmax, ?_⟩
      simp only [LRUCache.size, List.length_append, List.length_cons, List.length_nil]
      omega

@[simp] theorem runSets_nil (c : LRUCache V) : c.runSets [] = some c := rfl

theorem runSets_cons (c : LRUCache V) (k : String) (v : V) (rest : List (String × V)) :
    c.runSets ((k, v) :: rest) =
      match c.set k v with
      | none => none
      | some (c', _) => c'.runSets rest := rfl

theorem runSets_bound {N : Nat} (hN : 1 ≤ N) :
    ∀ (ops : List (String × V)) (c₀ c : LRUCache V), c₀.maxSize = N → c₀.size ≤ N →
      c₀.runSets ops = some c → c.maxSize = N ∧ c.size ≤ N := by
  intro ops
  induction ops with
  | nil =>
    intro c₀ c h1 h2 h
    obtain rfl : c₀ = c := by simpa using h
    exact ⟨h1, h2⟩
  | cons p rest ih =>
    intro c₀ c h1 h2 h
    obtain ⟨pk, pv⟩ := p
    rw [runSets_cons] at h
    rcases hset : c₀.set pk pv with _ | ⟨c₁, ev⟩
    · rw [hset] at h
      simp at h
    · rw [hset] at h
      obtain ⟨h1', h2'⟩ := set_preserves_bound hN h1 h2 hset
      exact ih c₁ c h1' h2' h

@[simp] theorem runOps_nil (c : LRUCache V) : c.runOps [] = some (c, []) := rfl

theorem runOps_cons (c : LRUCache V) (op : CacheOp V) (rest : List (CacheOp V)) :
    c.runOps (op :: rest) =
      (c.step op).bind fun r => (r.1.runOps rest).map fun r' => (r'.1, r.2 ++ r'.2) := rfl

@[simp] theorem step_has (c : LRUCache V) (k : String) :
    c.step (CacheOp.has k) = some (c, []) := rfl

theorem runOps_replicate_has (c : LRUCache V) (m : Nat) (k : String)
    (ops : List (CacheOp V)) :
    c.runOps (List.replicate m (CacheOp.has k) ++ ops) = c.runOps ops := by
  induction m with
  | zero => simp
  | succ m ih =>
    rw [List.replicate_succ, List.cons_append, runOps_cons, step_has]
    show ((c.runOps (List.replicate m (CacheOp.has k) ++ ops)).map
      fun r' => (r'.1, [] ++ r'.2)) = _
    rw [ih]
    rcases c.runOps ops with _ | r
    · rfl
    · simp

end LruLemmas

section ServerLemmas

variable {V : Type u}

theorem mapDelete_append_single_of_not_has {l : List (String × V)} {k : String} {v : V}
    (h : mapHas l k = false) : (mapDelete (l ++ [(k, v)]) k).1 = l := by
  induction l with
  | nil => simp
  | cons e rest ih =>
    obtain ⟨ek, ev⟩ := e
    by_cases hek : ek = k
    · simp [hek] at h
    · simp only [mapHas_cons, if_neg hek] at h
      simp [hek, ih h]

theorem mapHas_iff_mem_keys (l : List (String × V)) (k : String) :
    mapHas l k = true ↔ k ∈ l.map Prod.fst := by
  induction l with
  | nil => simp
  | cons e rest ih =>
    obtain ⟨ek, ev⟩ := e
    by_cases h : ek = k
    · simp [h]
    · simp [h, ih, Ne.symm h]

theorem mapHas_eq_false_of_not_mem_keys {l : List (String × V)} {k : String}
    (h : k ∉ l.map Prod.fst) : mapHas l k = false := by
  rcases hb : mapHas l k with _ | _
  · rfl
  · exact absurd ((mapHas_iff_mem_keys l k).mp hb) h

theorem keys_mapDelete_sublist (l : List (String × V)) (k : String) :
    ((mapDelete l k).1.map Prod.fst).Sublist (l.map Prod.fst) := by
  induction l with
  | nil => simp
  | cons e rest ih =>
    obtain ⟨ek, ev⟩ := e
    by_cases h : ek = k
    · simp only [mapDelete_cons, if_pos h, List.map_cons]
      exact List.sublist_cons_self _ _
    · simp only [mapDelete_cons, if_neg h, List.map_cons]
      exact ih.cons₂ ek

theorem nodup_keys_mapDelete {l : List (String × V)} {k : String}
    (hnd : (l.map Prod.fst).Nodup) : ((mapDelete l k).1.map Prod.fst).Nodup :=
  hnd.sublist (keys_mapDelete_sublist l k)

theorem mapHas_mapDelete_self {l : List (String × V)} {k : String}
    (hnd : (l.map Prod.fst).Nodup) : mapHas (mapDelete l k).1 k = false := by
  induction l with
  | nil => rfl
  | cons e rest ih =>
    obtain ⟨ek, ev⟩ := e
    rw [List.map_cons, List.nodup_cons] at hnd
    by_cases h : ek = k
    · simp only [mapDelete_cons, if_pos h]
      exact mapHas_eq_false_of_not_mem_keys (h ▸ hnd.1)
    · simp only [mapDelete_cons, if_neg h, mapHas_cons, if_neg h]
      exact ih hnd.2

theorem get_absent {st : LRUCache V} {k : String} (h : mapGet st.cache k = none) :
    st.get k = (none, st) := by
  unfold LRUCache.get
  rw [h]

theorem get_present {st : LRUCache V} {k : String} {v : V}
    (h : mapGet st.cache k = some v) :
    st.get k = (some v, ⟨st.maxSize, mapSet (mapDelete st.cache k).1 k v⟩) := by
  unfold LRUCache.get
  rw [h]

theorem nodup_keys_promote {l : List (String × V)} {k : String} (v : V)
    (hnd : (l.map Prod.fst).Nodup) :
    ((mapSet (mapDelete l k).1 k v).map Prod.fst).Nodup := by
  have hdk : mapHas (mapDelete l k).1 k = false := mapHas_mapDelete_self hnd
  rw [mapSet_of_not_has _ hdk]
  rw [List.map_append, List.map_cons, List.map_nil, List.nodup_append_comm]
  rw [List.singleton_append, List.nodup_cons]
  exact ⟨fun hm => by simp [(mapHas_iff_mem_keys _ _).mpr hm] at hdk,
    nodup_keys_mapDelete hnd⟩

theorem mapHas_promote_ne {l : List (String × V)} {k k' : String} {v : V}
    (hne : k' ≠ k) (h : mapHas l k' = false) :
    mapHas (mapSet (mapDelete l k).1 k v) k' = false := by
  rw [mapHas_mapSet, mapHas_mapDelete_ne hne, h]
  simp [Ne.symm hne]

theorem mapGet_promote_ne {l : List (String × V)} {k k' : String} (v : V)
    (hne : k' ≠ k) : mapGet (mapSet (mapDelete l k).1 k v) k' = mapGet l k' := by
  rw [mapGet_mapSet_ne _ hne, mapGet_mapDelete_ne hne]

theorem has_get_snd {st : LRUCache V} {k k' : String} (h : st.has k' = false) :
    ((st.get k).2).has k' = false := by
  rcases hg : mapGet st.cache k with _ | v
  · rw [get_absent hg]
    exact h
  · by_cases hne : k' = k
    · subst hne
      have hh := mapHas_of_mapGet_some hg
      have h' : mapHas st.cache k' = false := h
      rw [h'] at hh
      cases hh
    · rw [get_present hg]
      exact mapHas_promote_ne hne h

end ServerLemmas

section SweepLemmas

theorem cleanupSession_absent {st : LRUCache SessionInfo} {sid : String}
    (h : mapGet st.cache sid = none) (b : Bool) :
    cleanupSession b sid st = (st, []) := by
  unfold cleanupSession
  rw [get_absent h]

theorem cleanupSession_present {st : LRUCache SessionInfo} {sid : String}
    {info : SessionInfo} (hnd : (st.cache.map Prod.fst).Nodup)
    (h : mapGet st.cache sid = some info) (b : Bool) :
    cleanupSession b sid st =
      (⟨st.maxSize, (mapDelete st.cache sid).1⟩, [(info.transport, b)]) := by
  unfold cleanupSession
  rw [get_present h]
  have hdk : mapHas (mapDelete st.cache sid).1 sid = false := mapHas_mapDelete_self hnd
  show ((⟨st.maxSize, (mapDelete (mapSet (mapDelete st.cache sid).1 sid info) sid).1⟩ :
      LRUCache SessionInfo), _) = _
  rw [mapSet_of_not_has _ hdk, mapDelete_append_single_of_not_has hdk]

theorem sweepStep_cases (now : Int) (f : String → Bool)
    (acc : LRUCache SessionInfo × List (Nat × Bool)) (e : String × SessionInfo)
    (hnd : (acc.1.cache.map Prod.fst).Nodup) :
    sweepStep now f acc e = acc ∨
    ∃ v, mapGet acc.1.cache e.1 = some v ∧
      sweepStep now f acc e =
        (⟨acc.1.maxSize, (mapDelete acc.1.cache e.1).1⟩,
          acc.2 ++ [(v.transport, f e.1)]) := by
  obtain ⟨c, evs⟩ := acc
  unfold sweepStep
  by_cases hc : SESSION_IDLE_TIMEOUT_MS < now - e.2.lastActivity
  · rw [if_pos hc]
    rcases hg : mapGet c.cache e.1 with _ | v
    · rw [cleanupSession_absent hg]
      left
      simp
    · rw [cleanupSession_present hnd hg]
      right
      exact ⟨v, rfl, rfl⟩
  · rw [if_neg hc]
    left
    rfl

theorem sweepStep_nodup (now : Int) (f : String → Bool)
    (acc : LRUCache SessionInfo × List (Nat × Bool)) (e : String × SessionInfo)
    (hnd : (acc.1.cache.map Prod.fst).Nodup) :
    ((sweepStep now f acc e).1.cache.map Prod.fst).Nodup := by
  rcases sweepStep_cases now f acc e hnd with h | ⟨v, _, h⟩ <;> rw [h]
  · exact hnd
  · exact nodup_keys_mapDelete hnd

theorem sweepStep_not_has {now : Int} {f : String → Bool}
    {acc : LRUCache SessionInfo × List (Nat × Bool)} {e : String × SessionInfo}
    {sid : String} (hnd : (acc.1.cache.map Prod.fst).Nodup)
    (h : acc.1.has sid = false) : (sweepStep now f acc e).1.has sid = false := by
  rcases sweepStep_cases now f acc e hnd with hc | ⟨v, _, hc⟩ <;> rw [hc]
  · exact h
  · by_cases hne : sid = e.1
    · subst hne
      exact mapHas_mapDelete_self hnd
    · show mapHas (mapDelete acc.1.cache e.1).1 sid = false
      rw [mapHas_mapDelete_ne hne]
      exact h

theorem sweep_fold_not_has (now : Int) (f : String → Bool) {sid : String} :
    ∀ (es : List (String × SessionInfo)) (acc : LRUCache SessionInfo × List (Nat × Bool)),
      (acc.1.cache.map Prod.fst).Nodup → acc.1.has sid = false →
      (es.foldl (sweepStep now f) acc).1.has sid = false := by
  intro es
  induction es with
  | nil => intro acc _ h; exact h
  | cons e rest ih =>
    intro acc hnd h
    exact ih (sweepStep now f acc e) (sweepStep_nodup now f acc e hnd)
      (sweepStep_not_has hnd h)

theorem sweep_fold_events_extend (now : Int) (f : String → Bool) :
    ∀ (es : List (String × SessionInfo)) (acc : LRUCache SessionInfo × List (Nat × Bool)),
      ∃ extra, (es.foldl (sweepStep now f) acc).2 = acc.2 ++ extra := by
  intro es
  induction es with
  | nil => intro acc; exact ⟨[], by simp⟩
  | cons e rest ih =>
    intro acc
    obtain ⟨extra, hex⟩ := ih (sweepStep now f acc e)
    rw [List.foldl_cons]
    have hstep : ∃ mid, (sweepStep now f acc e).2 = acc.2 ++ mid := by
      unfold sweepStep
      by_cases hc : SESSION_IDLE_TIMEOUT_MS < now - e.2.lastActivity
      · rw [if_pos hc]
        exact ⟨(cleanupSession (f e.1) e.1 acc.1).2, rfl⟩
      · rw [if_neg hc]
        exact ⟨[], by simp⟩
    obtain ⟨mid, hm⟩ := hstep
    exact ⟨mid ++ extra, by rw [hex, hm, List.append_assoc]⟩

theorem sweep_fold_before_hit (now : Int) (f : String → Bool) {sid : String}
    {info : SessionInfo} :
    ∀ (es : List (String × SessionInfo)) (acc : LRUCache SessionInfo × List (Nat × Bool)),
      (∀ e ∈ es, e.1 ≠ sid) →
      (acc.1.cache.map Prod.fst).Nodup → mapGet acc.1.cache sid = some info →
      ((es.foldl (sweepStep now f) acc).1.cache.map Prod.fst).Nodup ∧
      mapGet (es.foldl (sweepStep now f) acc).1.cache sid = some info := by
  intro es
  induction es with
  | nil => intro acc _ hnd hg; exact ⟨hnd, hg⟩
  | cons e rest ih =>
    intro acc hes hnd hg
    have hne : sid ≠ e.1 := fun h => hes e (by simp) h.symm
    have hstep : mapGet (sweepStep now f acc e).1.cache sid = some info := by
      rcases sweepStep_cases now f acc e hnd with hc | ⟨v, _, hc⟩ <;> rw [hc]
      · exact hg
      · show mapGet (mapDelete acc.1.cache e.1).1 sid = some info
        rw [mapGet_mapDelete_ne hne]
        exact hg
    exact ih (sweepStep now f acc e) (fun x hx => hes x (by simp [hx]))
      (sweepStep_nodup now f acc e hnd) hstep

theorem sweepStep_state_congr (now : Int) (f g : String → Bool)
    (acc acc' : LRUCache SessionInfo × List (Nat × Bool)) (e : String × SessionInfo)
    (h : acc.1 = acc'.1) : (sweepStep now f acc e).1 = (sweepStep now g acc' e).1 := by
  unfold sweepStep
  by_cases hc : SESSION_IDLE_TIMEOUT_MS < now - e.2.lastActivity
  · rw [if_pos hc, if_pos hc]
    show (cleanupSession (f e.1) e.1 acc.1).1 = (cleanupSession (g e.1) e.1 acc'.1).1
    rw [h]
    unfold cleanupSession
    rcases hg : mapGet acc'.1.cache e.1 with _ | v <;> simp [LRUCache.get, hg]
  · rw [if_neg hc, if_neg hc]
    exact h

theorem sweep_fold_state_congr (now : Int) (f g : String → Bool) :
    ∀ (es : List (String × SessionInfo))
      (acc acc' : LRUCache SessionInfo × List (Nat × Bool)), acc.1 = acc'.1 →
      (es.foldl (sweepStep now f) acc).1 = (es.foldl (sweepStep now g) acc').1 := by
  intro es
  induction es with
  | nil => intro acc acc' h; exact h
  | cons e rest ih =>
    intro acc acc' h
    exact ih _ _ (sweepStep_state_congr now f g acc acc' e h)

theorem sweep_tail_removes (now : Int) (f : String → Bool) {sid : String}
    {info : SessionInfo} (hexp : SESSION_IDLE_TIMEOUT_MS < now - info.lastActivity) :
    ∀ (l₂ : List (String × SessionInfo))
      (acc : LRUCache SessionInfo × List (Nat × Bool)),
      (acc.1.cache.map Prod.fst).Nodup → mapGet acc.1.cache sid = some info →
      (((sid, info) :: l₂).foldl (sweepStep now f) acc).1.has sid = false ∧
      (info.transport, f sid) ∈ (((sid, info) :: l₂).foldl (sweepStep now f) acc).2 := by
  intro l₂ acc hnd hg
  rw [List.foldl_cons]
  have hB : sweepStep now f acc (sid, info) =
      (⟨acc.1.maxSize, (mapDelete acc.1.cache sid).1⟩,
        acc.2 ++ [(info.transport, f sid)]) := by
    unfold sweepStep
    rw [if_pos hexp, cleanupSession_present hnd hg]
  rw [hB]
  constructor
  · exact sweep_fold_not_has now f l₂ _ (nodup_keys_mapDelete hnd)
      (mapHas_mapDelete_self hnd)
  · obtain ⟨extra, hex⟩ := sweep_fold_events_extend now f l₂
      ((⟨acc.1.maxSize, (mapDelete acc.1.cache sid).1⟩ : LRUCache SessionInfo),
        acc.2 ++ [(info.transport, f sid)])
    rw [hex]
    simp

theorem mapGet_some_split {l : List (String × SessionInfo)} {k : String} {v : SessionInfo}
    (h : mapGet l k = some v) :
    ∃ l₁ l₂, l = l₁ ++ (k, v) :: l₂ ∧ ∀ e ∈ l₁, e.1 ≠ k := by
  induction l with
  | nil => simp at h
  | cons e rest ih =>
    obtain ⟨ek, ev⟩ := e
    by_cases hek : ek = k
    · subst hek
      rw [mapGet_cons, if_pos rfl] at h
      obtain rfl : ev = v := by injection h
      exact ⟨[], rest, rfl, by simp⟩
    · rw [mapGet_cons, if_neg hek] at h
      obtain ⟨l₁, l₂, rfl, hl₁⟩ := ih h
      refine ⟨(ek, ev) :: l₁, l₂, rfl, ?_⟩
      intro x hx
      rcases List.mem_cons.mp hx with hx1 | hx1
      · simp [hx1, hek]
      · exact hl₁ x hx1

theorem postHandler_not_found (now : Int) (disp : DispatchResult) (newSid : String)
    (newTid : Nat) (est : Bool) (init : Bool) {st : LRUCache SessionInfo} {sid : String}
    (hhas : st.has sid = false) :
    mcpPostHandler now disp newSid newTid est ⟨some sid, init⟩ st =
      ⟨st, [sessionNotFound], [], [], false⟩ := by
  have hg : mapGet st.cache sid = none := mapGet_eq_none_of_not_has hhas
  simp [mcpPostHandler, LRUCache.get, hg]

theorem getHandler_not_found (now : Int) (disp : DispatchResult) (init : Bool)
    {st : LRUCache SessionInfo} {sid : String} (hhas : st.has sid = false) :
    mcpGetHandler now disp ⟨some sid, init⟩ st = ⟨st, [sessionNotFound], [], [], false⟩ := by
  have hg : mapGet st.cache sid = none := mapGet_eq_none_of_not_has hhas
  simp [mcpGetHandler, LRUCache.get, hg]

theorem deleteHandler_not_found (disp : DispatchResult) (init : Bool)
    {st : LRUCache SessionInfo} {sid : String} (hhas : st.has sid = false) :
    mcpDeleteHandler disp ⟨some sid, init⟩ st = ⟨st, [sessionNotFound], [], [], false⟩ := by
  have hg : mapGet st.cache sid = none := mapGet_eq_none_of_not_has hhas
  simp [mcpDeleteHandler, LRUCache.get, hg]

end SweepLemmas

/-- C1: for every sequence of `set` operations run from a fresh `LRUCache`
with `maxSize N ≥ 1` (every prefix of a longer sequence being itself such a
sequence), the cache size never exceeds `N`; and a `set` of a key not
currently present while the size equals `N` removes exactly one entry — the
head of the recency order, i.e. the least-recently-accessed key at that
moment — before the new entry is inserted at the most-recent end. -/
theorem lru_capacity_bound_and_lru_eviction {V : Type} (N : Nat) (hN : 1 ≤ N)
    (ops : List (String × V)) (c : LRUCache V)
    (hrun : (LRUCache.empty V N).runSets ops = some c) :
    c.size ≤ N ∧
    ∀ k v, c.has k = false → c.size = N →
      ∃ e t, c.cache = e :: t ∧
        c.set k v = some (⟨N, t ++ [(k, v)]⟩, some e) := by
  obtain ⟨hmax, hsize⟩ :=
    runSets_bound hN ops _ c rfl (by simp [LRUCache.empty, LRUCache.size]) hrun
  refine ⟨hsize, ?_⟩
  intro k v hhas hsz
  rcases hcc : c.cache with _ | ⟨⟨k0, v0⟩, t⟩
  · exfalso
    have h0 : c.cache.length = 0 := by simp [hcc]
    have hN' : c.cache.length = N := hsz
    omega
  · refine ⟨(k0, v0), t, rfl, ?_⟩
    have hfull : c.maxSize ≤ c.cache.length := by
      have hN' : c.cache.length = N := hsz
      omega
    rw [← hmax]
    exact set_overflow v hcc hhas hfull

/-- Witness for C1: three `set`s on a cache of capacity 2 stay within the
bound (the third evicts the oldest key `"a"`). -/
theorem lru_capacity_bound_and_lru_eviction_witness :
    ((LRUCache.empty Nat 2).runSets [("a", 1), ("b", 2), ("c", 3)] =
      some ⟨2, [("b", 2), ("c", 3)]⟩) ∧
    (⟨2, [("b", 2), ("c", 3)]⟩ : LRUCache Nat).size ≤ 2 := by
  have hrun : (LRUCache.empty Nat 2).runSets [("a", 1), ("b", 2), ("c", 3)] =
      some ⟨2, [("b", 2), ("c", 3)]⟩ := by decide
  exact ⟨hrun,
    (lru_capacity_bound_and_lru_eviction 2 (by decide) [("a", 1), ("b", 2), ("c", 3)]
      ⟨2, [("b", 2), ("c", 3)]⟩ hrun).1⟩

/-- C2: on an overflowing `set` of a new key, the eviction hook fires exactly
once, receiving the evicted (least-recently-used) key and its value, the
evicted entry being removed before the new one is admitted (the hook
invocation is part of `set`'s own return, i.e. synchronous); a `set` of an
already-present key fires no hook; `delete` fires no hook regardless of
presence. -/
theorem lru_evict_hook_exactly_once {V : Type} (c : LRUCache V) (hpos : 1 ≤ c.maxSize) :
    (∀ k v, c.has k = false → c.maxSize ≤ c.size →
      ∃ e t, c.cache = e :: t ∧
        c.set k v = some (⟨c.maxSize, t ++ [(k, v)]⟩, some e)) ∧
    (∀ k v, c.has k = true →
      c.set k v = some (⟨c.maxSize, mapSet (mapDelete c.cache k).1 k v⟩, none)) ∧
    (∀ k, c.step (CacheOp.del k) = some ((c.delete k).1, [])) := by
  refine ⟨?_, fun k v hhas => set_present v hhas, fun k => rfl⟩
  intro k v hhas hfull
  rcases hcc : c.cache with _ | ⟨⟨k0, v0⟩, t⟩
  · exfalso
    have h0 : c.cache.length = 0 := by simp [hcc]
    have h1 : c.maxSize ≤ c.cache.length := hfull
    omega
  · exact ⟨(k0, v0), t, rfl, set_overflow v hcc hhas hfull⟩

/-- Witness for C2: a full one-entry cache evicts `("a", 0)` when `"b"` is
inserted. -/
theorem lru_evict_hook_exactly_once_witness :
    ∃ e t, (⟨1, [("a", 0)]⟩ : LRUCache Nat).cache = e :: t ∧
      (⟨1, [("a", 0)]⟩ : LRUCache Nat).set "b" 1 = some (⟨1, t ++ [("b", 1)]⟩, some e) :=
  (lru_evict_hook_exactly_once (⟨1, [("a", 0)]⟩ : LRUCache Nat) (by decide)).1 "b" 1
    (by decide) (by decide)

/-- C3: interposing any finite number of `has k` calls between two `set`
operations leaves the whole run — final cache (hence recency order) and
eviction outcome — identical to the run without the `has` calls. -/
theorem has_preserves_eviction_outcome {V : Type} (c : LRUCache V)
    (k k₁ k₂ : String) (v₁ v₂ : V) (m : Nat) :
    c.runOps (CacheOp.set k₁ v₁ ::
        (List.replicate m (CacheOp.has k) ++ [CacheOp.set k₂ v₂])) =
    c.runOps [CacheOp.set k₁ v₁, CacheOp.set k₂ v₂] := by
  rw [runOps_cons]
  show _ = c.runOps (CacheOp.set k₁ v₁ :: [CacheOp.set k₂ v₂])
  rw [runOps_cons]
  simp only [runOps_replicate_has]

/-- C4: the boundary matcher agrees with the spec's contract — true iff the
request path equals the allowed path exactly or begins with it followed
immediately by a path separator, with exact-prefix matching when the allowed
path already ends in `'/'` — and decides the spec's six examples as given. -/
theorem path_boundary_matcher_correct :
    (∀ p a, matchesAllowedPathBoundary p a = true ↔ matchesBoundarySpec p a) ∧
    matchesAllowedPathBoundary "/mcp".data "/mcp".data = true ∧
    matchesAllowedPathBoundary "/mcp/x".data "/mcp".data = true ∧
    matchesAllowedPathBoundary "/mcp-admin".data "/mcp".data = false ∧
    matchesAllowedPathBoundary "/a".data "/a/".data = false ∧
    matchesAllowedPathBoundary "/a/".data "/a/".data = true ∧
    matchesAllowedPathBoundary "/a/b".data "/a/".data = true := by
  refine ⟨?_, by decide, by decide, by decide, by decide, by decide, by decide⟩
  intro p a
  by_cases hpa : p = a
  · constructor
    · intro _h
      exact Or.inl hpa
    · intro _h
      unfold matchesAllowedPathBoundary
      rw [if_pos hpa]
  · unfold matchesAllowedPathBoundary matchesBoundarySpec
    rw [if_neg hpa]
    by_cases hsuf : List.isSuffixOf ['/'] a = true
    · rw [if_pos hsuf, if_pos hsuf]
      constructor
      · intro h
        have hpre : a <+: p := by simpa using h
        obtain ⟨t, ht⟩ := hpre
        exact Or.inr ⟨t, ht.symm⟩
      · rintro (rfl | ⟨rest, rfl⟩)
        · exact absurd rfl hpa
        · simp
    · rw [if_neg hsuf, if_neg hsuf]
      constructor
      · intro h
        have hpre : (a ++ ['/']) <+: p := by simpa using h
        obtain ⟨t, ht⟩ := hpre
        refine Or.inr ⟨t, ?_⟩
        rw [← ht, List.append_assoc]
        rfl
      · rintro (rfl | ⟨rest, rfl⟩)
        · exact absurd rfl hpa
        · simp

/-- C5: a POST bearing a session key that is not in the cache is rejected
with the 404 not-found envelope regardless of payload, creating nothing and
leaving the cache untouched; a POST with no key and a non-initializing
payload is rejected with the 400 bad-request envelope, likewise leaving the
cache untouched. -/
theorem post_rejects_unknown_and_keyless (now : Int) (disp : DispatchResult)
    (newSid : String) (newTid : Nat) (established : Bool) (req : McpRequest)
    (st : LRUCache SessionInfo) :
    (∀ sid, req.sessionId = some sid → st.has sid = false →
      mcpPostHandler now disp newSid newTid established req st =
        ⟨st, [sessionNotFound], [], [], false⟩) ∧
    (req.sessionId = none → req.isInit = false →
      mcpPostHandler now disp newSid newTid established req st =
        ⟨st, [badRequestNoSession], [], [], false⟩) := by
  obtain ⟨rsid, rinit⟩ := req
  constructor
  · intro sid hsid hhas
    cases hsid
    have hget : mapGet st.cache sid = none := mapGet_eq_none_of_not_has hhas
    simp [mcpPostHandler, LRUCache.get, hget]
  · intro hsid hinit
    cases hsid
    simp only at hinit
    simp [mcpPostHandler, hinit]

/-- Witness for C5: an unknown key `"x"` on an empty cache is rejected 404. -/
theorem post_rejects_unknown_and_keyless_witness :
    mcpPostHandler 0 DispatchResult.ok "n" 7 false ⟨some "x", true⟩
        (LRUCache.empty SessionInfo 1000) =
      ⟨LRUCache.empty SessionInfo 1000, [sessionNotFound], [], [], false⟩ :=
  (post_rejects_unknown_and_keyless 0 DispatchResult.ok "n" 7 false ⟨some "x", true⟩
    (LRUCache.empty SessionInfo 1000)).1 "x" rfl (by decide)

/-- C6: a session whose last activity is older than the idle timeout at a
sweep tick is removed by that tick (its engine receiving a close
instruction), every subsequent POST, GET or DELETE bearing its key is
rejected with the not-found envelope, and engine-close failures (any pattern
`g` of failing closes) leave the resulting cache state unchanged — removal
is not prevented. -/
theorem idle_sweep_removes_expired_sessions (now : Int) (f : String → Bool)
    (st : LRUCache SessionInfo) (hnd : (st.cache.map Prod.fst).Nodup)
    (sid : String) (info : SessionInfo)
    (hmem : mapGet st.cache sid = some info)
    (hexp : SESSION_IDLE_TIMEOUT_MS < now - info.lastActivity) :
    (sweepTick now f st).1.has sid = false ∧
    (info.transport, f sid) ∈ (sweepTick now f st).2 ∧
    (∀ g, (sweepTick now g st).1 = (sweepTick now f st).1) ∧
    (∀ now' disp newSid newTid est init,
      mcpPostHandler now' disp newSid newTid est ⟨some sid, init⟩ (sweepTick now f st).1 =
        ⟨(sweepTick now f st).1, [sessionNotFound], [], [], false⟩) ∧
    (∀ now' disp init,
      mcpGetHandler now' disp ⟨some sid, init⟩ (sweepTick now f st).1 =
        ⟨(sweepTick now f st).1, [sessionNotFound], [], [], false⟩) ∧
    (∀ disp init,
      mcpDeleteHandler disp ⟨some sid, init⟩ (sweepTick now f st).1 =
        ⟨(sweepTick now f st).1, [sessionNotFound], [], [], false⟩) := by
  obtain ⟨l₁, l₂, hsplit, hl₁⟩ := mapGet_some_split hmem
  obtain ⟨hndA, hgA⟩ :=
    sweep_fold_before_hit now f l₁ (st, ([] : List (Nat × Bool))) hl₁ hnd hmem
  have htail :=
    sweep_tail_removes now f hexp l₂
      (l₁.foldl (sweepStep now f) (st, ([] : List (Nat × Bool)))) hndA hgA
  have hfold : sweepTick now f st =
      ((sid, info) :: l₂).foldl (sweepStep now f)
        (l₁.foldl (sweepStep now f) (st, ([] : List (Nat × Bool)))) := by
    unfold sweepTick LRUCache.entries
    rw [hsplit, List.foldl_append]
  rw [hfold]
  refine ⟨htail.1, htail.2, ?_, ?_, ?_, ?_⟩
  · intro g
    rw [← hfold]
    unfold sweepTick LRUCache.entries
    exact sweep_fold_state_congr now g f st.cache (st, []) (st, []) rfl
  · intro now' disp newSid newTid est init
    exact postHandler_not_found now' disp newSid newTid est init htail.1
  · intro now' disp init
    exact getHandler_not_found now' disp init htail.1
  · intro disp init
    exact deleteHandler_not_found disp init htail.1

/-- Witness for C6: a single session `"s"` last active at time 0 is swept at
time `1800001` (one past the 30-minute timeout): it is gone, its transport 3
received a close, and a POST bearing its key is rejected 404. -/
theorem idle_sweep_removes_expired_sessions_witness :
    (sweepTick 1800001 (fun _ => false) ⟨1000, [("s", ⟨3, 0⟩)]⟩).1.has "s" = false ∧
    ((3 : Nat), false) ∈ (sweepTick 1800001 (fun _ => false) ⟨1000, [("s", ⟨3, 0⟩)]⟩).2 ∧
    (mcpPostHandler 9 DispatchResult.ok "n" 7 false ⟨some "s", true⟩
        (sweepTick 1800001 (fun _ => false) ⟨1000, [("s", ⟨3, 0⟩)]⟩).1 =
      ⟨(sweepTick 1800001 (fun _ => false) ⟨1000, [("s", ⟨3, 0⟩)]⟩).1,
        [sessionNotFound], [], [], false⟩) := by
  have h := idle_sweep_removes_expired_sessions 1800001 (fun _ => false)
    ⟨1000, [("s", ⟨3, 0⟩)]⟩ (by decide) "s" ⟨3, 0⟩ (by decide) (by decide)
  exact ⟨h.1, h.2.1, h.2.2.2.1 9 DispatchResult.ok "n" 7 false true⟩

section HandlerLemmas

theorem mapHas_eq_false_of_mapGet_none {V : Type u} {l : List (String × V)} {k : String}
    (h : mapGet l k = none) : mapHas l k = false := by
  induction l with
  | nil => rfl
  | cons e rest ih =>
    obtain ⟨ek, ev⟩ := e
    by_cases hek : ek = k
    · simp [hek] at h
    · simp only [mapGet_cons, if_neg hek] at h
      simp [hek, ih h]

theorem touchSession_absent {now : Int} {sid : String} {st : LRUCache SessionInfo}
    (h : mapGet st.cache sid = none) : touchSession now sid st = st := by
  unfold touchSession
  rw [get_absent h]

theorem touchSession_present_eq {now : Int} {sid : String} {st : LRUCache SessionInfo}
    {v : SessionInfo} (h : mapGet st.cache sid = some v) :
    touchSession now sid st =
      ⟨st.maxSize,
        mapSet (mapDelete (mapSet (mapDelete st.cache sid).1 sid v) sid).1 sid
          { v with lastActivity := now }⟩ := by
  have hh : (⟨st.maxSize, mapSet (mapDelete st.cache sid).1 sid v⟩ :
      LRUCache SessionInfo).has sid = true :=
    mapHas_of_mapGet_some (mapGet_mapSet_self _ _ _)
  simp only [touchSession, get_present h, set_present _ hh]

theorem mapGet_touchSession_self {now : Int} {sid : String} {st : LRUCache SessionInfo}
    {v : SessionInfo} (h : mapGet st.cache sid = some v) :
    mapGet (touchSession now sid st).cache sid = some { v with lastActivity := now } := by
  rw [touchSession_present_eq h]
  exact mapGet_mapSet_self _ _ _

theorem has_touchSession {now : Int} {sid sid' : String} {st : LRUCache SessionInfo}
    (h : st.has sid' = false) : (touchSession now sid st).has sid' = false := by
  rcases hg : mapGet st.cache sid with _ | v
  · rw [touchSession_absent hg]
    exact h
  · have hne : sid' ≠ sid := by
      intro e
      have hh := mapHas_of_mapGet_some hg
      rw [← e] at hh
      have h' : mapHas st.cache sid' = false := h
      rw [h'] at hh
      cases hh
    rw [touchSession_present_eq hg]
    show mapHas (mapSet (mapDelete (mapSet (mapDelete st.cache sid).1 sid v) sid).1 sid
      { v with lastActivity := now }) sid' = false
    exact mapHas_promote_ne hne (mapHas_promote_ne hne h)

theorem postHandler_resolved (now : Int) (disp : DispatchResult) (newSid : String)
    (newTid : Nat) (est init : Bool) {st : LRUCache SessionInfo} {sid : String}
    {info : SessionInfo} (hmem : mapGet st.cache sid = some info) :
    mcpPostHandler now disp newSid newTid est ⟨some sid, init⟩ st =
      ⟨touchSession now sid ⟨st.maxSize, mapSet (mapDelete st.cache sid).1 sid info⟩,
        (match disp with
          | DispatchResult.thrown false => [internalServerError]
          | _ => []),
        [info.transport], [sid], false⟩ := by
  rcases disp with _ | hs
  · simp [mcpPostHandler, LRUCache.get, hmem]
  · rcases hs with _ | _ <;> simp [mcpPostHandler, LRUCache.get, hmem]

theorem getHandler_resolved (now : Int) (disp : DispatchResult) (init : Bool)
    {st : LRUCache SessionInfo} {sid : String} {info : SessionInfo}
    (hmem : mapGet st.cache sid = some info) :
    mcpGetHandler now disp ⟨some sid, init⟩ st =
      ⟨touchSession now sid ⟨st.maxSize, mapSet (mapDelete st.cache sid).1 sid info⟩,
        [], [info.transport], [sid], false⟩ := by
  rcases disp with _ | hs <;> simp [mcpGetHandler, LRUCache.get, hmem]

theorem deleteHandler_resolved (disp : DispatchResult) (init : Bool)
    {st : LRUCache SessionInfo} {sid : String} {info : SessionInfo}
    (hmem : mapGet st.cache sid = some info) :
    mcpDeleteHandler disp ⟨some sid, init⟩ st =
      ⟨⟨st.maxSize, mapSet (mapDelete st.cache sid).1 sid info⟩,
        (match disp with
          | DispatchResult.thrown false => [terminationError]
          | _ => []),
        [info.transport], [], false⟩ := by
  rcases disp with _ | hs
  · simp [mcpDeleteHandler, LRUCache.get, hmem]
  · rcases hs with _ | _ <;> simp [mcpDeleteHandler, LRUCache.get, hmem]

end HandlerLemmas

/-- C7 (amended): for a resolved session, the POST and DELETE handlers write
nothing further when the dispatch throws after the response has begun
streaming, and write exactly one well-formed internal-error envelope when it
throws before any bytes were written; the GET handler has no `try`/`catch`
and itself writes no error envelope on a thrown dispatch (the exception
escapes the handler). -/
theorem dispatch_error_response_discipline (now : Int) (st : LRUCache SessionInfo)
    (sid : String) (info : SessionInfo) (hmem : mapGet st.cache sid = some info)
    (newSid : String) (newTid : Nat) (est init : Bool) :
    (mcpPostHandler now (DispatchResult.thrown true) newSid newTid est
      ⟨some sid, init⟩ st).writes = [] ∧
    (mcpPostHandler now (DispatchResult.thrown false) newSid newTid est
      ⟨some sid, init⟩ st).writes = [internalServerError] ∧
    (mcpDeleteHandler (DispatchResult.thrown true) ⟨some sid, init⟩ st).writes = [] ∧
    (mcpDeleteHandler (DispatchResult.thrown false) ⟨some sid, init⟩ st).writes =
      [terminationError] ∧
    (∀ hs, (mcpGetHandler now (DispatchResult.thrown hs) ⟨some sid, init⟩ st).writes = []) ∧
    internalServerError.status = 500 ∧ internalServerError.code = JSONRPC_ERROR_INTERNAL ∧
    terminationError.status = 500 ∧ terminationError.code = JSONRPC_ERROR_INTERNAL := by
  refine ⟨?_, ?_, ?_, ?_, ?_, rfl, rfl, rfl, rfl⟩
  · rw [postHandler_resolved now (DispatchResult.thrown true) newSid newTid est init hmem]
  · rw [postHandler_resolved now (DispatchResult.thrown false) newSid newTid est init hmem]
  · rw [deleteHandler_resolved (DispatchResult.thrown true) init hmem]
  · rw [deleteHandler_resolved (DispatchResult.thrown false) init hmem]
  · intro hs
    rw [getHandler_resolved now (DispatchResult.thrown hs) init hmem]

/-- Witness for C7 (amended): concrete resolved session `"s"`. -/
theorem dispatch_error_response_discipline_witness :
    (mcpPostHandler 0 (DispatchResult.thrown false) "n" 7 false ⟨some "s", false⟩
        ⟨1000, [("s", ⟨1, 0⟩)]⟩).writes = [internalServerError] ∧
    (mcpDeleteHandler (DispatchResult.thrown true) ⟨some "s", false⟩
        ⟨1000, [("s", ⟨1, 0⟩)]⟩).writes = [] := by
  have h := dispatch_error_response_discipline 0 ⟨1000, [("s", ⟨1, 0⟩)]⟩ "s" ⟨1, 0⟩
    (by decide) "n" 7 false false
  exact ⟨h.2.1, h.2.2.1⟩

/-- Counterexample to C7 as stated: on the GET endpoint a dispatch that
throws before any bytes are written (`headersSent = false`) produces no
internal-error response at all — the handler writes zero envelopes, not
exactly one. -/
theorem get_throw_before_bytes_writes_nothing :
    (⟨1000, [("s", (⟨1, 0⟩ : SessionInfo))]⟩ : LRUCache SessionInfo).has "s" = true ∧
    (mcpGetHandler 0 (DispatchResult.thrown false) ⟨some "s", false⟩
        ⟨1000, [("s", ⟨1, 0⟩)]⟩).writes = [] ∧
    (mcpGetHandler 0 (DispatchResult.thrown false) ⟨some "s", false⟩
        ⟨1000, [("s", ⟨1, 0⟩)]⟩).writes.length ≠ 1 := by decide

/-- C8 (amended): for a resolved session, a POST continue and a GET refresh
the session's last-activity timestamp exactly once (one `touchSession` call;
the stored timestamp equals the dispatch time afterwards), whatever the
dispatch outcome; the DELETE handler makes no `touchSession` call and leaves
the stored timestamp unchanged. -/
theorem activity_refresh_on_dispatch (now : Int) (disp : DispatchResult)
    (st : LRUCache SessionInfo) (sid : String) (info : SessionInfo)
    (hmem : mapGet st.cache sid = some info) (newSid : String) (newTid : Nat)
    (est init : Bool) :
    (mcpPostHandler now disp newSid newTid est ⟨some sid, init⟩ st).touched = [sid] ∧
    mapGet (mcpPostHandler now disp newSid newTid est ⟨some sid, init⟩ st).sessions.cache
      sid = some { info with lastActivity := now } ∧
    (mcpGetHandler now disp ⟨some sid, init⟩ st).touched = [sid] ∧
    mapGet (mcpGetHandler now disp ⟨some sid, init⟩ st).sessions.cache sid =
      some { info with lastActivity := now } ∧
    (mcpDeleteHandler disp ⟨some sid, init⟩ st).touched = [] ∧
    mapGet (mcpDeleteHandler disp ⟨some sid, init⟩ st).sessions.cache sid = some info := by
  have hpromote : mapGet (mapSet (mapDelete st.cache sid).1 sid info) sid = some info :=
    mapGet_mapSet_self _ _ _
  refine ⟨?_, ?_, ?_, ?_, ?_, ?_⟩
  · rw [postHandler_resolved now disp newSid newTid est init hmem]
  · rw [postHandler_resolved now disp newSid newTid est init hmem]
    exact mapGet_touchSession_self hpromote
  · rw [getHandler_resolved now disp init hmem]
  · rw [getHandler_resolved now disp init hmem]
    exact mapGet_touchSession_self hpromote
  · rw [deleteHandler_resolved disp init hmem]
  · rw [deleteHandler_resolved disp init hmem]
    exact hpromote

/-- Witness for C8 (amended): a GET at time 42 touches `"s"` once and leaves
its timestamp at 42. -/
theorem activity_refresh_on_dispatch_witness :
    (mcpGetHandler 42 DispatchResult.ok ⟨some "s", false⟩
        ⟨1000, [("s", ⟨7, 5⟩)]⟩).touched = ["s"] ∧
    mapGet (mcpGetHandler 42 DispatchResult.ok ⟨some "s", false⟩
        ⟨1000, [("s", ⟨7, 5⟩)]⟩).sessions.cache "s" = some ⟨7, 42⟩ := by
  have h := activity_refresh_on_dispatch 42 DispatchResult.ok ⟨1000, [("s", ⟨7, 5⟩)]⟩
    "s" ⟨7, 5⟩ (by decide) "n" 9 false false
  exact ⟨h.2.2.1, h.2.2.2.1⟩

/-- Counterexample to C8 as stated: a successful DELETE dispatch to a
resolved session makes zero `touchSession` calls (not exactly one) and the
stored last-activity timestamp stays at its old value 5. -/
theorem delete_dispatch_does_not_refresh :
    (mcpDeleteHandler DispatchResult.ok ⟨some "s", false⟩
        ⟨1000, [("s", ⟨7, 5⟩)]⟩).dispatched = [7] ∧
    (mcpDeleteHandler DispatchResult.ok ⟨some "s", false⟩
        ⟨1000, [("s", ⟨7, 5⟩)]⟩).writes = [] ∧
    (mcpDeleteHandler DispatchResult.ok ⟨some "s", false⟩
        ⟨1000, [("s", ⟨7, 5⟩)]⟩).touched = [] ∧
    mapGet (mcpDeleteHandler DispatchResult.ok ⟨some "s", false⟩
        ⟨1000, [("s", ⟨7, 5⟩)]⟩).sessions.cache "s" = some ⟨7, 5⟩ := by decide

/-- C9 (amended): on the GET and DELETE endpoints an unresolved session key
is always rejected with the 404 not-found envelope and a missing key with
the 400 bad-request envelope; these endpoints construct no engine and never
add a session key to the cache, whatever the header or payload content. -/
theorem get_delete_never_create (now : Int) (disp : DispatchResult) (req : McpRequest)
    (st : LRUCache SessionInfo) :
    (∀ sid, req.sessionId = some sid → st.has sid = false →
      mcpGetHandler now disp req st = ⟨st, [sessionNotFound], [], [], false⟩ ∧
      mcpDeleteHandler disp req st = ⟨st, [sessionNotFound], [], [], false⟩) ∧
    (req.sessionId = none →
      mcpGetHandler now disp req st = ⟨st, [missingSessionId], [], [], false⟩ ∧
      mcpDeleteHandler disp req st = ⟨st, [missingSessionId], [], [], false⟩) ∧
    (mcpGetHandler now disp req st).engineCreated = false ∧
    (mcpDeleteHandler disp req st).engineCreated = false ∧
    (∀ sid', st.has sid' = false →
      (mcpGetHandler now disp req st).sessions.has sid' = false ∧
      (mcpDeleteHandler disp req st).sessions.has sid' = false) := by
  obtain ⟨rsid, rinit⟩ := req
  refine ⟨?_, ?_, ?_, ?_, ?_⟩
  · intro sid hsid hhas
    cases hsid
    exact ⟨getHandler_not_found now disp rinit hhas, deleteHandler_not_found disp rinit hhas⟩
  · intro hsid
    cases hsid
    exact ⟨rfl, rfl⟩
  · rcases rsid with _ | sid
    · rfl
    · rcases hg : mapGet st.cache sid with _ | info
      · rw [getHandler_not_found now disp rinit (mapHas_eq_false_of_mapGet_none hg)]
      · rw [getHandler_resolved now disp rinit hg]
  · rcases rsid with _ | sid
    · rfl
    · rcases hg : mapGet st.cache sid with _ | info
      · rw [deleteHandler_not_found disp rinit (mapHas_eq_false_of_mapGet_none hg)]
      · rw [deleteHandler_resolved disp rinit hg]
  · intro sid' hhas'
    rcases rsid with _ | sid
    · exact ⟨hhas', hhas'⟩
    · rcases hg : mapGet st.cache sid with _ | info
      · refine ⟨?_, ?_⟩
        · rw [getHandler_not_found now disp rinit (mapHas_eq_false_of_mapGet_none hg)]
          exact hhas'
        · rw [deleteHandler_not_found disp rinit (mapHas_eq_false_of_mapGet_none hg)]
          exact hhas'
      · have hne : sid' ≠ sid := by
          intro e
          have hh := mapHas_of_mapGet_some hg
          rw [← e] at hh
          have h' : mapHas st.cache sid' = false := hhas'
          rw [h'] at hh
          cases hh
        refine ⟨?_, ?_⟩
        · rw [getHandler_resolved now disp rinit hg]
          exact has_touchSession (mapHas_promote_ne hne hhas')
        · rw [deleteHandler_resolved disp rinit hg]
          exact mapHas_promote_ne hne hhas'

/-- Witness for C9 (amended): an unknown key `"x"` is rejected 404 by both
GET and DELETE on an empty cache. -/
theorem get_delete_never_create_witness :
    mcpGetHandler 0 DispatchResult.ok ⟨some "x", false⟩ (LRUCache.empty SessionInfo 1000) =
      ⟨LRUCache.empty SessionInfo 1000, [sessionNotFound], [], [], false⟩ ∧
    mcpDeleteHandler DispatchResult.ok ⟨some "x", false⟩ (LRUCache.empty SessionInfo 1000) =
      ⟨LRUCache.empty SessionInfo 1000, [sessionNotFound], [], [], false⟩ :=
  (get_delete_never_create 0 DispatchResult.ok ⟨some "x", false⟩
    (LRUCache.empty SessionInfo 1000)).1 "x" rfl (by decide)

/-- Counterexample to C9 as stated: a GET with no session key is rejected
with the 400 bad-request envelope — a classification outcome that is neither
reuse (nothing is dispatched) nor not-found. -/
theorem get_missing_key_bad_request_outcome :
    (mcpGetHandler 0 DispatchResult.ok ⟨none, false⟩
        (LRUCache.empty SessionInfo 1000)).dispatched = [] ∧
    (mcpGetHandler 0 DispatchResult.ok ⟨none, false⟩
        (LRUCache.empty SessionInfo 1000)).writes = [missingSessionId] ∧
    missingSessionId.status = 400 ∧
    missingSessionId ≠ sessionNotFound ∧
    (mcpGetHandler 0 DispatchResult.ok ⟨none, false⟩
        (LRUCache.empty SessionInfo 1000)).writes ≠ [sessionNotFound] := by decide

/-- C10: when the Origin header is absent the CORS middleware sets no
cross-origin headers and always falls through to `next()`, even for OPTIONS
requests on allow-listed paths; the 204 preflight and the 403 rejection are
reachable only when an Origin header is present. -/
theorem cors_absent_origin_passthrough (req : CorsRequest) :
    (req.origin = none → corsMiddleware req = CorsAction.pass []) ∧
    (∀ hs, corsMiddleware req = CorsAction.preflight hs → req.origin ≠ none) ∧
    (corsMiddleware req = CorsAction.forbidden → req.origin ≠ none) := by
  obtain ⟨o, m, p⟩ := req
  rcases o with _ | origin
  · refine ⟨fun _ => rfl, ?_, ?_⟩
    · intro hs h
      simp [corsMiddleware] at h
    · intro h
      simp [corsMiddleware] at h
  · refine ⟨fun h => absurd h (by simp), ?_, ?_⟩
    · intro hs _ h
      exact Option.noConfusion h
    · intro _ h
      exact Option.noConfusion h

/-- Witness for C10: an OPTIONS request for `/mcp` without an Origin header
still passes straight through with no CORS headers. -/
theorem cors_absent_origin_passthrough_witness :
    corsMiddleware ⟨none, "OPTIONS", "/mcp".data⟩ = CorsAction.pass [] :=
  (cors_absent_origin_passthrough ⟨none, "OPTIONS", "/mcp".data⟩).1 rfl

end VibeMcp
